import Mathlib

/-!
Verification of the Connect-Four game-state engine and move-evaluation core
(`Four_in_a_row.py`): board representation, win detection, positional scoring
heuristic, and the greedy move-selection policy.

The board is embedded as a total function from (row, column) to cell values,
mirroring the 6×7 numpy integer grid; row 0 is the bottom.  All functions of
the engine core are translated directly from the source.  The main game loop,
being UI plumbing, is not modelled except for the undo cell-reset it performs.
-/

namespace FourInARow

/-- Number of rows of the grid (source constant `ROW_COUNT`). -/
def ROW_COUNT : ℕ := 6

/-- Number of columns of the grid (source constant `COLUMN_COUNT`). -/
def COLUMN_COUNT : ℕ := 7

/-- Length of a scoring window (source constant `WINDOW_LENGTH`). -/
def WINDOW_LENGTH : ℕ := 4

/-- Cell value for an empty slot (source constant `EMPTY`). -/
def EMPTY : ℕ := 0

/-- Cell value for the human player's piece (source constant `PLAYER_PIECE`). -/
def PLAYER_PIECE : ℕ := 1

/-- Cell value for the computer's piece (source constant `AI_PIECE`). -/
def AI_PIECE : ℕ := 2

/-- A board: cell value at row `r` (0 = bottom), column `c`.  Embeds the
6×7 numpy array; only indices with `r < 6`, `c < 7` are ever read by the
engine functions. -/
def Board : Type := ℕ → ℕ → ℕ

/-- Source `create_board`: the all-empty grid (`np.zeros`). -/
def create_board : Board := fun _ _ => EMPTY

/-- Source `drop_piece`: `board[row][col] = piece`.  In the pure embedding
the updated board is returned. -/
def drop_piece (board : Board) (row col piece : ℕ) : Board :=
  fun r c => if r = row ∧ c = col then piece else board r c

/-- Source `board.copy()`: numpy's copy of a 2-D int array is a deep,
independent copy; in the pure embedding it is the same cell function. -/
def copy_board (board : Board) : Board := fun r c => board r c

/-- Source `is_valid_location`: the topmost cell (`ROW_COUNT - 1`) of the
column is empty. -/
def is_valid_location (board : Board) (col : ℕ) : Bool :=
  board (ROW_COUNT - 1) col == EMPTY

/-- Source `get_next_open_row`: first `r` in `range(ROW_COUNT)` with
`board[r][col] == EMPTY`, else `None`. -/
def get_next_open_row (board : Board) (col : ℕ) : Option ℕ :=
  (List.range ROW_COUNT).find? (fun r => board r col == EMPTY)

/-- Source `winning_move`: scans horizontal windows, vertical windows,
up-slope diagonals (`r+i, c+i`) and down-slope diagonals (`r-i, c+i`,
with `r` in `range(3, ROW_COUNT)`). -/
def winning_move (board : Board) (piece : ℕ) : Bool :=
  ((List.range (COLUMN_COUNT - 3)).any fun c =>
    (List.range ROW_COUNT).any fun r =>
      (board r c == piece) && (board r (c + 1) == piece) &&
      (board r (c + 2) == piece) && (board r (c + 3) == piece)) ||
  ((List.range COLUMN_COUNT).any fun c =>
    (List.range (ROW_COUNT - 3)).any fun r =>
      (board r c == piece) && (board (r + 1) c == piece) &&
      (board (r + 2) c == piece) && (board (r + 3) c == piece)) ||
  ((List.range (COLUMN_COUNT - 3)).any fun c =>
    (List.range (ROW_COUNT - 3)).any fun r =>
      (board r c == piece) && (board (r + 1) (c + 1) == piece) &&
      (board (r + 2) (c + 2) == piece) && (board (r + 3) (c + 3) == piece)) ||
  ((List.range (COLUMN_COUNT - 3)).any fun c =>
    (List.range' 3 (ROW_COUNT - 3)).any fun r =>
      (board r c == piece) && (board (r - 1) (c + 1) == piece) &&
      (board (r - 2) (c + 2) == piece) && (board (r - 3) (c + 3) == piece))

/-- Source `evaluate_window`: score a 4-slot window via piece counts. -/
def evaluate_window (window : List ℕ) (piece : ℕ) : ℤ :=
  let opp_piece := if piece = AI_PIECE then PLAYER_PIECE else AI_PIECE
  let score : ℤ := 0
  let score :=
    if window.count piece = 4 then score + 100
    else if window.count piece = 3 ∧ window.count EMPTY = 1 then score + 5
    else if window.count piece = 2 ∧ window.count EMPTY = 2 then score + 2
    else score
  let score :=
    if window.count opp_piece = 3 ∧ window.count EMPTY = 1 then score - 4
    else score
  score

/-- Source `score_position`: center-column bonus plus `evaluate_window`
summed over every horizontal, vertical and diagonal 4-window. -/
def score_position (board : Board) (piece : ℕ) : ℤ :=
  let score : ℤ := 0
  let center_count :=
    ((List.range ROW_COUNT).map (fun r => board r (COLUMN_COUNT / 2))).count piece
  let score := score + (center_count : ℤ) * 3
  let score := score +
    (((List.range ROW_COUNT).map fun r =>
      ((List.range (COLUMN_COUNT - 3)).map fun c =>
        evaluate_window ((List.range WINDOW_LENGTH).map fun i => board r (c + i))
          piece).sum).sum)
  let score := score +
    (((List.range COLUMN_COUNT).map fun c =>
      ((List.range (ROW_COUNT - 3)).map fun r =>
        evaluate_window ((List.range WINDOW_LENGTH).map fun i => board (r + i) c)
          piece).sum).sum)
  let score := score +
    (((List.range (ROW_COUNT - 3)).map fun r =>
      ((List.range (COLUMN_COUNT - 3)).map fun c =>
        evaluate_window ((List.range WINDOW_LENGTH).map fun i =>
          board (r + i) (c + i)) piece).sum).sum)
  let score := score +
    (((List.range (ROW_COUNT - 3)).map fun r =>
      ((List.range (COLUMN_COUNT - 3)).map fun c =>
        evaluate_window ((List.range WINDOW_LENGTH).map fun i =>
          board (r + 3 - i) (c + i)) piece).sum).sum)
  score

/-- Source `get_valid_locations`: columns whose top cell is still empty,
in ascending order. -/
def get_valid_locations (board : Board) : List ℕ :=
  (List.range COLUMN_COUNT).filter (fun c => is_valid_location board c)

/-- Source `is_terminal_node`: a win for either piece, or no valid columns. -/
def is_terminal_node (board : Board) : Bool :=
  winning_move board PLAYER_PIECE || winning_move board AI_PIECE ||
    ((get_valid_locations board).length == 0)

/-- The loop of source `pick_best_move`, threading the real board through
the state explicitly: each iteration reads the board, simulates the drop on
a copy of it (`temp_board`), and updates the running best.  `best_score`
starts as `-math.inf`, modelled `none`, which every finite score beats.
The `getD 0` for the drop row is unreachable for the valid columns this
loop receives (Python would raise on a `None` row). -/
def pick_loop (piece : ℕ) :
    List ℕ → Board × ℕ × Option ℤ → Board × ℕ × Option ℤ
  | [], st => st
  | col :: rest, (board, best_col, best_score) =>
      let row := (get_next_open_row board col).getD 0
      let temp_board := copy_board board
      let temp_board := drop_piece temp_board row col piece
      let score := score_position temp_board piece
      match best_score with
      | none => pick_loop piece rest (board, col, some score)
      | some s =>
          if s < score then pick_loop piece rest (board, col, some score)
          else pick_loop piece rest (board, best_col, best_score)

/-- Source `pick_best_move`, state-passing form: result paired with the
final state of the argument board.  With no valid column the source returns
`(None, 0)`; otherwise `best_col` starts at the first valid column and
`best_score` at `-inf`, so the loop's first iteration always installs the
first column's score, and afterwards `best_score` is a finite number
(the `getD 0` never fires). -/
def pick_best_move_state (board : Board) (piece : ℕ) :
    (Option ℕ × ℤ) × Board :=
  match get_valid_locations board with
  | [] => ((none, 0), board)
  | c0 :: rest =>
      let st := pick_loop piece (c0 :: rest) (board, c0, none)
      ((some st.2.1, st.2.2.getD 0), st.1)

/-- Source `pick_best_move`: the value the call returns. -/
def pick_best_move (board : Board) (piece : ℕ) : Option ℕ × ℤ :=
  (pick_best_move_state board piece).1

/-- Source `get_recommended_move`: hint for the human player. -/
def get_recommended_move (board : Board) : Option ℕ × String :=
  if is_terminal_node board then
    (none, "Board is already in a finished state.")
  else
    match pick_best_move board PLAYER_PIECE with
    | (none, _) => (none, "No valid moves.")
    | (some col, _) => (some col, "Drop in column " ++ toString (col + 1) ++ ".")

/-- Score of the board obtained by simulating a drop of `piece` into `col`
on a copy of `board`, exactly as one iteration of `pick_best_move` does. -/
def sim_score (board : Board) (piece col : ℕ) : ℤ :=
  score_position
    (drop_piece (copy_board board) ((get_next_open_row board col).getD 0) col piece)
    piece

/-- Horizontal mirror of a board: cell `(r, c)` maps to `(r, 6 - c)`. -/
def mirror_board (board : Board) : Board := fun r c => board r (6 - c)

/-- Contract value of the scoring table in spec §4.3, written from the
spec's words, for comparison with the source's `evaluate_window`. -/
def spec_window_value (window : List ℕ) (piece : ℕ) : ℤ :=
  let opponent := if piece = AI_PIECE then PLAYER_PIECE else AI_PIECE
  if window.count piece = 4 then 100
  else if window.count piece = 3 ∧ window.count EMPTY = 1 then 5
  else if window.count piece = 2 ∧ window.count EMPTY = 2 then 2
  else if window.count opponent = 3 ∧ window.count EMPTY = 1 then -4
  else 0

/-- Board reached from the empty board by dropping the player's piece in
columns 0, 1, 2, 3, each landing in row 0. -/
def demo_board : Board :=
  drop_piece (drop_piece (drop_piece (drop_piece create_board 0 0 PLAYER_PIECE)
    0 1 PLAYER_PIECE) 0 2 PLAYER_PIECE) 0 3 PLAYER_PIECE

/-- A horizontal four-in-a-row for `p` somewhere on the board. -/
def horiz_win (b : Board) (p : ℕ) : Prop :=
  ∃ c, c < COLUMN_COUNT - 3 ∧ ∃ r, r < ROW_COUNT ∧
    (b r c = p ∧ b r (c + 1) = p ∧ b r (c + 2) = p ∧ b r (c + 3) = p)

/-- A vertical four-in-a-row for `p` somewhere on the board. -/
def vert_win (b : Board) (p : ℕ) : Prop :=
  ∃ c, c < COLUMN_COUNT ∧ ∃ r, r < ROW_COUNT - 3 ∧
    (b r c = p ∧ b (r + 1) c = p ∧ b (r + 2) c = p ∧ b (r + 3) c = p)

/-- An up-slope diagonal four-in-a-row (rows and columns both increase). -/
def diag_up_win (b : Board) (p : ℕ) : Prop :=
  ∃ c, c < COLUMN_COUNT - 3 ∧ ∃ r, r < ROW_COUNT - 3 ∧
    (b r c = p ∧ b (r + 1) (c + 1) = p ∧ b (r + 2) (c + 2) = p ∧
      b (r + 3) (c + 3) = p)

/-- A down-slope diagonal four-in-a-row (rows decrease as columns increase). -/
def diag_down_win (b : Board) (p : ℕ) : Prop :=
  ∃ c, c < COLUMN_COUNT - 3 ∧ ∃ r, (3 ≤ r ∧ r < ROW_COUNT) ∧
    (b r c = p ∧ b (r - 1) (c + 1) = p ∧ b (r - 2) (c + 2) = p ∧
      b (r - 3) (c + 3) = p)

/-- A found row in `find?` over `range n` satisfies the predicate and is
the least such index. -/
lemma find?_range_first {p : ℕ → Bool} :
    ∀ {n r : ℕ}, (List.range n).find? p = some r →
      p r = true ∧ ∀ k < r, p k = false := by
  intro n
  induction n with
  | zero => intro r h; simp [List.range_zero] at h
  | succ n ih =>
    intro r h
    rw [List.range_succ, List.find?_append] at h
    cases hfind : (List.range n).find? p with
    | some x =>
      rw [hfind] at h
      simp only [Option.or_some, Option.some.injEq] at h
      exact h ▸ ih hfind
    | none =>
      rw [hfind] at h
      simp only [Option.none_or] at h
      by_cases hp : p n
      · rw [List.find?_cons_of_pos _ hp] at h
        cases h
        refine ⟨hp, fun k hk => ?_⟩
        have := List.find?_eq_none.mp hfind k (List.mem_range.mpr hk)
        simpa using this
      · rw [List.find?_cons_of_neg _ hp] at h
        simp at h

lemma pick_loop_nil (piece : ℕ) (st : Board × ℕ × Option ℤ) :
    pick_loop piece [] st = st := rfl

lemma pick_loop_cons_none (piece col : ℕ) (rest : List ℕ) (b : Board)
    (bc : ℕ) :
    pick_loop piece (col :: rest) (b, bc, none) =
      pick_loop piece rest (b, col, some (sim_score b piece col)) := rfl

lemma pick_loop_cons_some (piece col : ℕ) (rest : List ℕ) (b : Board)
    (bc : ℕ) (s : ℤ) :
    pick_loop piece (col :: rest) (b, bc, some s) =
      if s < sim_score b piece col
      then pick_loop piece rest (b, col, some (sim_score b piece col))
      else pick_loop piece rest (b, bc, some s) := rfl

/-- The loop of `pick_best_move` never writes to the real board: the board
component of the state passes through unchanged. -/
lemma pick_loop_board (piece : ℕ) :
    ∀ (l : List ℕ) (st : Board × ℕ × Option ℤ),
      (pick_loop piece l st).1 = st.1 := by
  intro l
  induction l with
  | nil => intro st; rfl
  | cons col rest ih =>
    intro st
    obtain ⟨b, bc, bs⟩ := st
    cases bs with
    | none => rw [pick_loop_cons_none]; exact ih _
    | some s =>
      rw [pick_loop_cons_some]
      by_cases h : s < sim_score b piece col
      · rw [if_pos h]; exact ih _
      · rw [if_neg h]; exact ih _

/-- Starting from a column `c` with its own simulated score, the loop of
`pick_best_move` computes the maximum simulated score over `c :: l` and the
earliest column attaining it (strict improvement keeps earlier columns on
ties; the list is strictly ascending). -/
lemma pick_loop_argmax (b : Board) (piece : ℕ) :
    ∀ (l : List ℕ) (c : ℕ), List.Pairwise (· < ·) (c :: l) →
      ∃ c', pick_loop piece l (b, c, some (sim_score b piece c)) =
              (b, c', some (sim_score b piece c')) ∧
        c' ∈ c :: l ∧
        (∀ x ∈ c :: l, sim_score b piece x ≤ sim_score b piece c') ∧
        (∀ x ∈ c :: l, sim_score b piece x = sim_score b piece c' →
          c' ≤ x) := by
  intro l
  induction l with
  | nil =>
    intro c _
    refine ⟨c, rfl, List.mem_singleton_self c, ?_, ?_⟩
    · intro x hx
      rcases List.mem_singleton.mp hx with rfl
      exact le_refl _
    · intro x hx _
      rcases List.mem_singleton.mp hx with rfl
      exact le_refl _
  | cons d t ih =>
    intro c hpair
    rw [pick_loop_cons_some]
    rcases List.pairwise_cons.mp hpair with ⟨hc_lt, hpair'⟩
    by_cases hlt : sim_score b piece c < sim_score b piece d
    · rw [if_pos hlt]
      obtain ⟨c', heq, hmem, hmax, htie⟩ := ih d hpair'
      refine ⟨c', heq, List.mem_cons_of_mem c hmem, ?_, ?_⟩
      · intro x hx
        rcases List.mem_cons.mp hx with rfl | hx'
        · exact le_of_lt (lt_of_lt_of_le hlt (hmax d (List.mem_cons_self d t)))
        · exact hmax x hx'
      · intro x hx hfx
        rcases List.mem_cons.mp hx with rfl | hx'
        · exfalso
          have h1 := hmax d (List.mem_cons_self d t)
          omega
        · exact htie x hx' hfx
    · rw [if_neg hlt]
      push_neg at hlt
      have hpair'' : List.Pairwise (· < ·) (c :: t) := by
        refine List.pairwise_cons.mpr ⟨?_, (List.pairwise_cons.mp hpair').2⟩
        intro x hx
        exact hc_lt x (List.mem_cons_of_mem d hx)
      obtain ⟨c', heq, hmem, hmax, htie⟩ := ih c hpair''
      refine ⟨c', heq, ?_, ?_, ?_⟩
      · rcases List.mem_cons.mp hmem with rfl | h'
        · exact List.mem_cons_self _ _
        · exact List.mem_cons_of_mem _ (List.mem_cons_of_mem d h')
      · intro x hx
        rcases List.mem_cons.mp hx with rfl | hx'
        · exact hmax x (List.mem_cons_self x t)
        · rcases List.mem_cons.mp hx' with rfl | hx''
          · exact le_trans hlt (hmax c (List.mem_cons_self c t))
          · exact hmax x (List.mem_cons_of_mem c hx'')
      · intro x hx hfx
        rcases List.mem_cons.mp hx with rfl | hx'
        · exact htie x (List.mem_cons_self x t) hfx
        · rcases List.mem_cons.mp hx' with rfl | hx''
          · have h1 : sim_score b piece c ≤ sim_score b piece c' :=
              hmax c (List.mem_cons_self c t)
            have h2 : c' ≤ c := htie c (List.mem_cons_self c t) (by omega)
            have h3 : c < x := hc_lt x (List.mem_cons_self x t)
            omega
          · exact htie x (List.mem_cons_of_mem c hx'') hfx

lemma mem_range'_start3 (r : ℕ) :
    r ∈ List.range' 3 (ROW_COUNT - 3) ↔ 3 ≤ r ∧ r < ROW_COUNT := by
  rw [List.mem_range']
  unfold ROW_COUNT
  constructor
  · rintro ⟨i, hi, rfl⟩
    omega
  · rintro ⟨h1, h2⟩
    exact ⟨r - 3, by omega, by omega⟩

/-- The win scan succeeds exactly when one of the four window kinds has a
four-in-a-row. -/
lemma winning_move_eq_true_iff (b : Board) (p : ℕ) :
    winning_move b p = true ↔
      horiz_win b p ∨ vert_win b p ∨ diag_up_win b p ∨ diag_down_win b p := by
  simp only [winning_move, horiz_win, vert_win, diag_up_win, diag_down_win,
    Bool.or_eq_true, List.any_eq_true, List.mem_range, mem_range'_start3,
    Bool.and_eq_true, beq_iff_eq, and_assoc, or_assoc]

lemma horiz_win_mirror (b : Board) (p : ℕ) :
    horiz_win (mirror_board b) p ↔ horiz_win b p := by
  unfold horiz_win mirror_board COLUMN_COUNT ROW_COUNT
  constructor
  · rintro ⟨c, hc, r, hr, h0, h1, h2, h3⟩
    refine ⟨3 - c, by omega, r, hr, ?_, ?_, ?_, ?_⟩
    · have e : 6 - (c + 3) = 3 - c := by omega
      rw [← e]; exact h3
    · have e : 6 - (c + 2) = 3 - c + 1 := by omega
      rw [← e]; exact h2
    · have e : 6 - (c + 1) = 3 - c + 2 := by omega
      rw [← e]; exact h1
    · have e : 6 - c = 3 - c + 3 := by omega
      rw [← e]; exact h0
  · rintro ⟨c, hc, r, hr, h0, h1, h2, h3⟩
    refine ⟨3 - c, by omega, r, hr, ?_, ?_, ?_, ?_⟩
    · have e : 6 - (3 - c) = c + 3 := by omega
      rw [e]; exact h3
    · have e : 6 - (3 - c + 1) = c + 2 := by omega
      rw [e]; exact h2
    · have e : 6 - (3 - c + 2) = c + 1 := by omega
      rw [e]; exact h1
    · have e : 6 - (3 - c + 3) = c := by omega
      rw [e]; exact h0

lemma vert_win_mirror (b : Board) (p : ℕ) :
    vert_win (mirror_board b) p ↔ vert_win b p := by
  unfold vert_win mirror_board COLUMN_COUNT ROW_COUNT
  constructor
  · rintro ⟨c, hc, r, hr, h0, h1, h2, h3⟩
    exact ⟨6 - c, by omega, r, hr, h0, h1, h2, h3⟩
  · rintro ⟨c, hc, r, hr, h0, h1, h2, h3⟩
    have e : 6 - (6 - c) = c := by omega
    refine ⟨6 - c, by omega, r, hr, ?_, ?_, ?_, ?_⟩ <;> rw [e]
    · exact h0
    · exact h1
    · exact h2
    · exact h3

lemma diag_up_win_mirror (b : Board) (p : ℕ) :
    diag_up_win (mirror_board b) p ↔ diag_down_win b p := by
  unfold diag_up_win diag_down_win mirror_board COLUMN_COUNT ROW_COUNT
  constructor
  · rintro ⟨c, hc, r, hr, h0, h1, h2, h3⟩
    refine ⟨3 - c, by omega, r + 3, ⟨by omega, by omega⟩, ?_, ?_, ?_, ?_⟩
    · have e : 6 - (c + 3) = 3 - c := by omega
      rw [← e]; exact h3
    · have e1 : r + 3 - 1 = r + 2 := by omega
      have e2 : 6 - (c + 2) = 3 - c + 1 := by omega
      rw [e1, ← e2]; exact h2
    · have e1 : r + 3 - 2 = r + 1 := by omega
      have e2 : 6 - (c + 1) = 3 - c + 2 := by omega
      rw [e1, ← e2]; exact h1
    · have e1 : r + 3 - 3 = r := by omega
      have e2 : 6 - c = 3 - c + 3 := by omega
      rw [e1, ← e2]; exact h0
  · rintro ⟨c, hc, r, ⟨hr3, hr6⟩, h0, h1, h2, h3⟩
    refine ⟨3 - c, by omega, r - 3, by omega, ?_, ?_, ?_, ?_⟩
    · have e : 6 - (3 - c) = c + 3 := by omega
      rw [e]; exact h3
    · have e1 : r - 3 + 1 = r - 2 := by omega
      have e2 : 6 - (3 - c + 1) = c + 2 := by omega
      rw [e1, e2]; exact h2
    · have e1 : r - 3 + 2 = r - 1 := by omega
      have e2 : 6 - (3 - c + 2) = c + 1 := by omega
      rw [e1, e2]; exact h1
    · have e1 : r - 3 + 3 = r := by omega
      have e2 : 6 - (3 - c + 3) = c := by omega
      rw [e1, e2]; exact h0

lemma diag_down_win_mirror (b : Board) (p : ℕ) :
    diag_down_win (mirror_board b) p ↔ diag_up_win b p := by
  unfold diag_up_win diag_down_win mirror_board COLUMN_COUNT ROW_COUNT
  constructor
  · rintro ⟨c, hc, r, ⟨hr3, hr6⟩, h0, h1, h2, h3⟩
    refine ⟨3 - c, by omega, r - 3, by omega, ?_, ?_, ?_, ?_⟩
    · have e : 6 - (c + 3) = 3 - c := by omega
      rw [← e]; exact h3
    · have e1 : r - 3 + 1 = r - 2 := by omega
      have e2 : 6 - (c + 2) = 3 - c + 1 := by omega
      rw [e1, ← e2]; exact h2
    · have e1 : r - 3 + 2 = r - 1 := by omega
      have e2 : 6 - (c + 1) = 3 - c + 2 := by omega
      rw [e1, ← e2]; exact h1
    · have e1 : r - 3 + 3 = r := by omega
      have e2 : 6 - c = 3 - c + 3 := by omega
      rw [e1, ← e2]; exact h0
  · rintro ⟨c, hc, r, hr, h0, h1, h2, h3⟩
    refine ⟨3 - c, by omega, r + 3, ⟨by omega, by omega⟩, ?_, ?_, ?_, ?_⟩
    · have e : 6 - (3 - c) = c + 3 := by omega
      rw [e]; exact h3
    · have e1 : r + 3 - 1 = r + 2 := by omega
      have e2 : 6 - (3 - c + 1) = c + 2 := by omega
      rw [e1, e2]; exact h2
    · have e1 : r + 3 - 2 = r + 1 := by omega
      have e2 : 6 - (3 - c + 2) = c + 1 := by omega
      rw [e1, e2]; exact h1
    · have e1 : r + 3 - 3 = r := by omega
      have e2 : 6 - (3 - c + 3) = c := by omega
      rw [e1, e2]; exact h0

/-- C1: on every 4-cell window over cell values {Empty, PlayerPiece,
OpponentPiece} and every non-empty piece, `evaluate_window` returns exactly
the contract value of the spec's table (+100 / +5 / +2 / −4 / 0). -/
theorem evaluate_window_matches_table :
    ∀ (a b c d : Fin 3) (p : Fin 2),
      evaluate_window [a.val, b.val, c.val, d.val] (p.val + 1) =
        spec_window_value [a.val, b.val, c.val, d.val] (p.val + 1) := by
  decide

/-- C2: `pick_best_move` returns `(none, 0)` when no column is valid;
otherwise it returns a valid column and its simulated score, the score is
the maximum simulated score over all valid columns, and the column is the
lowest-index valid column attaining it (left-most tie-break). -/
theorem pick_best_move_correct (board : Board) (piece : ℕ)
    (hpiece : piece = PLAYER_PIECE ∨ piece = AI_PIECE) :
    (get_valid_locations board = [] →
      pick_best_move board piece = (none, 0)) ∧
    (get_valid_locations board ≠ [] →
      ∃ col, pick_best_move board piece =
          (some col, sim_score board piece col) ∧
        col ∈ get_valid_locations board ∧
        is_valid_location board col = true ∧
        (∀ x ∈ get_valid_locations board,
          sim_score board piece x ≤ sim_score board piece col) ∧
        (∀ x ∈ get_valid_locations board,
          sim_score board piece x = sim_score board piece col →
            col ≤ x)) := by
  cases hv : get_valid_locations board with
  | nil =>
    refine ⟨fun _ => ?_, fun hne => absurd rfl hne⟩
    unfold pick_best_move pick_best_move_state
    rw [hv]
  | cons c0 rest =>
    constructor
    · intro h
      exact absurd h (List.cons_ne_nil c0 rest)
    · intro _
      have hsorted : List.Pairwise (· < ·) (c0 :: rest) := by
        rw [← hv]
        exact (List.pairwise_lt_range COLUMN_COUNT).filter _
      obtain ⟨c', heq, hmem, hmax, htie⟩ :=
        pick_loop_argmax board piece rest c0 hsorted
      refine ⟨c', ?_, hv ▸ hmem, ?_, ?_, ?_⟩
      · unfold pick_best_move pick_best_move_state
        rw [hv]
        simp only
        rw [pick_loop_cons_none, heq]
        rfl
      · have hmem' : c' ∈ get_valid_locations board := hv ▸ hmem
        exact (List.mem_filter.mp hmem').2
      · intro x hx
        exact hmax x (hv ▸ hx)
      · intro x hx
        exact htie x (hv ▸ hx)

/-- C2 witness at a concrete input. -/
theorem pick_best_move_correct_witness :
    (get_valid_locations create_board = [] →
      pick_best_move create_board PLAYER_PIECE = (none, 0)) ∧
    (get_valid_locations create_board ≠ [] →
      ∃ col, pick_best_move create_board PLAYER_PIECE =
          (some col, sim_score create_board PLAYER_PIECE col) ∧
        col ∈ get_valid_locations create_board ∧
        is_valid_location create_board col = true ∧
        (∀ x ∈ get_valid_locations create_board,
          sim_score create_board PLAYER_PIECE x ≤
            sim_score create_board PLAYER_PIECE col) ∧
        (∀ x ∈ get_valid_locations create_board,
          sim_score create_board PLAYER_PIECE x =
            sim_score create_board PLAYER_PIECE col → col ≤ x)) :=
  pick_best_move_correct create_board PLAYER_PIECE (Or.inl rfl)

/-- C3: simulation isolation — after `pick_best_move` returns, the argument
board is unchanged at every cell (drops are simulated on a copy only). -/
theorem pick_best_move_isolation (board : Board) (piece : ℕ)
    (hpiece : piece = PLAYER_PIECE ∨ piece = AI_PIECE) (r c : ℕ) :
    (pick_best_move_state board piece).2 r c = board r c := by
  unfold pick_best_move_state
  cases hv : get_valid_locations board with
  | nil => rfl
  | cons c0 rest =>
    simp only
    rw [pick_loop_board]

/-- C3 witness at a concrete input. -/
theorem pick_best_move_isolation_witness :
    (pick_best_move_state create_board PLAYER_PIECE).2 0 0 =
      create_board 0 0 :=
  pick_best_move_isolation create_board PLAYER_PIECE (Or.inl rfl) 0 0

/-- C4: `get_recommended_move` fails exactly on terminal boards; on a
non-terminal board it returns the column `pick_best_move` chooses for the
player, and the defensive no-valid-moves branch is unreachable because
`pick_best_move` cannot return `none` there. -/
theorem get_recommended_move_spec (board : Board) :
    ((get_recommended_move board).1 = none ↔
      is_terminal_node board = true) ∧
    (is_terminal_node board = false →
      (get_recommended_move board).1 =
          (pick_best_move board PLAYER_PIECE).1 ∧
        (pick_best_move board PLAYER_PIECE).1 ≠ none) := by
  by_cases ht : is_terminal_node board
  · constructor
    · unfold get_recommended_move
      rw [if_pos ht]
      simp [ht]
    · intro h
      rw [ht] at h
      cases h
  · have ht' : is_terminal_node board = false := by
      simpa using ht
    have hvalid : get_valid_locations board ≠ [] := by
      intro hnil
      unfold is_terminal_node at ht'
      rw [hnil] at ht'
      simp at ht'
    obtain ⟨c0, rest, hv⟩ :
        ∃ c0 rest, get_valid_locations board = c0 :: rest := by
      cases hw : get_valid_locations board with
      | nil => exact absurd hw hvalid
      | cons a l => exact ⟨a, l, rfl⟩
    have hsome : ∃ col s,
        pick_best_move board PLAYER_PIECE = (some col, s) := by
      unfold pick_best_move pick_best_move_state
      rw [hv]
      exact ⟨_, _, rfl⟩
    obtain ⟨col, s, hpick⟩ := hsome
    constructor
    · unfold get_recommended_move
      rw [if_neg ht, hpick]
      simp [ht']
    · intro _
      unfold get_recommended_move
      rw [if_neg ht, hpick]
      simp

/-- C5: a board is terminal exactly when one of the pieces has a winning
four-in-a-row or no valid columns remain. -/
theorem is_terminal_node_iff (board : Board) :
    is_terminal_node board = true ↔
      winning_move board PLAYER_PIECE = true ∨
      winning_move board AI_PIECE = true ∨
      get_valid_locations board = [] := by
  simp [is_terminal_node, Bool.or_eq_true, List.length_eq_zero, or_assoc]

/-- C6: win detection is invariant under horizontally mirroring the board
(cell `(r, c)` maps to `(r, 6 - c)`): horizontal and vertical wins map to
wins of the same kind, and the two diagonal kinds swap. -/
theorem winning_move_mirror (board : Board) (piece : ℕ) :
    winning_move (mirror_board board) piece = winning_move board piece := by
  rw [Bool.eq_iff_iff, winning_move_eq_true_iff, winning_move_eq_true_iff,
    horiz_win_mirror, vert_win_mirror, diag_up_win_mirror,
    diag_down_win_mirror]
  tauto

/-- C7: `get_next_open_row` returns the lowest empty row of a column,
returns `none` exactly when the column is full, and always returns a row
on a valid column. -/
theorem get_next_open_row_spec (board : Board) (col : ℕ)
    (hcol : col < COLUMN_COUNT) :
    (∀ row, get_next_open_row board col = some row →
      row < ROW_COUNT ∧ board row col = EMPTY ∧
        ∀ r' < row, board r' col ≠ EMPTY) ∧
    (get_next_open_row board col = none ↔
      ∀ r < ROW_COUNT, board r col ≠ EMPTY) ∧
    (is_valid_location board col = true →
      (get_next_open_row board col).isSome = true) := by
  refine ⟨?_, ?_, ?_⟩
  · intro row h
    obtain ⟨h1, h2⟩ := find?_range_first h
    refine ⟨?_, by simpa using h1, fun r' hr' => by simpa using h2 r' hr'⟩
    have := List.mem_of_find?_eq_some h
    exact List.mem_range.mp this
  · unfold get_next_open_row
    rw [List.find?_eq_none]
    constructor
    · intro h r hr
      have := h r (List.mem_range.mpr hr)
      simpa using this
    · intro h r hr
      have := h r (List.mem_range.mp hr)
      simpa using this
  · intro hvalid
    cases hrow : get_next_open_row board col with
    | some row => rfl
    | none =>
      exfalso
      unfold get_next_open_row at hrow
      have := List.find?_eq_none.mp hrow (ROW_COUNT - 1)
        (List.mem_range.mpr (by unfold ROW_COUNT; omega))
      unfold is_valid_location at hvalid
      exact this hvalid

/-- C7 witness at a concrete input. -/
theorem get_next_open_row_spec_witness :
    (∀ row, get_next_open_row create_board 0 = some row →
      row < ROW_COUNT ∧ create_board row 0 = EMPTY ∧
        ∀ r' < row, create_board r' 0 ≠ EMPTY) ∧
    (get_next_open_row create_board 0 = none ↔
      ∀ r < ROW_COUNT, create_board r 0 ≠ EMPTY) ∧
    (is_valid_location create_board 0 = true →
      (get_next_open_row create_board 0).isSome = true) :=
  get_next_open_row_spec create_board 0 (by decide)

/-- C8: dropping a piece at the open row of a valid column and then
resetting that cell to `EMPTY` (as the undo handler does) restores the
original board cell-by-cell. -/
theorem drop_undo_round_trip (board : Board) (col piece row : ℕ)
    (hpiece : piece = PLAYER_PIECE ∨ piece = AI_PIECE)
    (hvalid : is_valid_location board col = true)
    (hrow : get_next_open_row board col = some row) (r c : ℕ) :
    drop_piece (drop_piece board row col piece) row col EMPTY r c =
      board r c := by
  have hempty : board row col = EMPTY := by
    have := List.find?_some hrow
    simpa using this
  unfold drop_piece
  by_cases h : r = row ∧ c = col
  · obtain ⟨rfl, rfl⟩ := h
    simp [hempty]
  · simp [h]

/-- C8 witness at a concrete input. -/
theorem drop_undo_round_trip_witness :
    drop_piece (drop_piece create_board 0 0 PLAYER_PIECE) 0 0 EMPTY 0 0 =
      create_board 0 0 :=
  drop_undo_round_trip create_board 0 PLAYER_PIECE 0 (Or.inl rfl)
    (by decide) (by decide) 0 0

/-- C9: dropping the player's piece in columns 0–3 of the empty board
(each landing in the row `get_next_open_row` computes, namely 0) produces
a board with a horizontal player win, which is terminal. -/
theorem horizontal_win_end_to_end :
    get_next_open_row create_board 0 = some 0 ∧
    get_next_open_row (drop_piece create_board 0 0 PLAYER_PIECE) 1 = some 0 ∧
    get_next_open_row (drop_piece (drop_piece create_board 0 0 PLAYER_PIECE)
      0 1 PLAYER_PIECE) 2 = some 0 ∧
    get_next_open_row (drop_piece (drop_piece (drop_piece create_board
      0 0 PLAYER_PIECE) 0 1 PLAYER_PIECE) 0 2 PLAYER_PIECE) 3 = some 0 ∧
    winning_move demo_board PLAYER_PIECE = true ∧
    is_terminal_node demo_board = true := by
  decide

/-- C10: on the empty board, either piece's best move is the center column 3
with score 3, the unique positive simulated score (center-column bonus). -/
theorem pick_best_move_empty_center :
    pick_best_move create_board PLAYER_PIECE = (some 3, 3) ∧
    pick_best_move create_board AI_PIECE = (some 3, 3) ∧
    (∀ p : Fin 2, ∀ c : Fin 7,
      sim_score create_board (p.val + 1) c.val =
        if c.val = 3 then 3 else 0) := by
  decide

end FourInARow
